import Mathlib

/-!
Verification of the undo/redo history manager
(`packages/tools/nodeEditor/src/historyStack.ts`, class `HistoryStack`).

The class keeps two stacks of zlib-compressed snapshots of the node
material's serialized JSON text:
  * `_history`   — the Past Stack, oldest at index 0, current state on top;
  * `_redoStack` — the Future Stack;
together with a reentrancy guard `_locked` and the live document.

Shallow embedding choices, documented per definition below:
  * JS arrays used as stacks become Lean `List`s; `push` appends on the
    right (`l ++ [x]`), `pop` is `getLast?`/`dropLast`, `splice(0,1)` is
    `tail`, `arr[arr.length - 1]` is `getLast?`.
  * Exceptions become an `Option String` in the operation's result: the
    mutations performed before the throw survive in the returned state,
    exactly as the mutated JS object survives a propagating exception.
  * Every public method of the class is `void`; the JS value a call
    evaluates to is recorded in the result as `Option Bool`, with `none`
    standing for `undefined`.
-/

namespace HistoryStack

/-- Modelled from the spec: a compressed snapshot buffer (`Uint8Array`
produced by `fflate.zlibSync`).  The compressor is external to the
repository; the spec (§2) gives its contract: `compress(text) -> bytes`,
`decompress(bytes) -> text`, inverse of each other for any text the codec
can produce, and decompression of an invalid buffer throws.  We model a
buffer as either a faithfully compressed text or a corrupt buffer. -/
inductive Snap where
  | good (text : String)
  | corrupt
deriving Repr, DecidableEq

/-- `_compress(dataString)`: `fflate.strToU8` + `fflate.zlibSync` (level 9).
In the abstract codec model a compression of `dataString` is the buffer
that decompresses back to `dataString`. -/
def compress (dataString : String) : Snap :=
  .good dataString

/-- `_decompress(data)`: `fflate.decompressSync` + `fflate.strFromU8`.
Decompressing a valid buffer recovers the compressed text; decompressing a
corrupt buffer throws (`.error`). -/
def decompress : Snap → Except String String
  | .good text => .ok text
  | .corrupt => .error "invalid zlib data"

/-- The mutable fields of a `HistoryStack` instance together with the live
document.  Modelled from the spec: the document (`_nodeMaterial`) is
represented by its canonical serialized text — the spec (§2) treats the
codec adapter (`serialize` / `parseSerializedObject`) as an external
deterministic pair, so `doc` stands for `JSON.stringify(nodeMaterial.serialize())`
and restoring a text into the document makes that text its serialization. -/
structure State where
  /-- `_history`: the Past Stack, oldest first, top (current state) last. -/
  history : List Snap
  /-- `_redoStack`: the Future Stack. -/
  redoStack : List Snap
  /-- `_locked`: the reentrancy guard. -/
  locked : Bool
  /-- The serialized text of the live document. -/
  doc : String
deriving Repr, DecidableEq

/-- `_maxHistoryLength = 64` (readonly field). -/
def maxHistoryLength : Nat := 64

/-- The observable outcome of calling one method: the state of the object
afterwards, the exception that propagated (if any), and the JS value the
call returned (`none` = `undefined`; meaningless when an exception
propagates). -/
structure Result where
  state : State
  thrown : Option String
  ret : Option Bool
deriving Repr, DecidableEq

/-- The unconditional tail of `_store`: compress the serialized text, push
it onto `_history`, then enforce the bound
(`if (this._history.length > this._maxHistoryLength) this._history.splice(0, 1)`). -/
def pushBounded (st : State) (dataString : String) : Result :=
  let compressedData := compress dataString
  let pushed := st.history ++ [compressedData]
  let bounded := if maxHistoryLength < pushed.length then pushed.tail else pushed
  ⟨{ st with history := bounded }, none, none⟩

/-- `_store()`: return immediately while `_locked`; otherwise serialize the
document (`SerializationTools.UpdateLocations` only refreshes node
coordinates inside the document before serialization), deduplicate against
the decompressed top of `_history`, and push with eviction.  The dedup
check `this._decompress(this._history[this._history.length - 1])` itself
throws on a corrupt top buffer, before any mutation. -/
def _store (st : State) : Result :=
  if st.locked then ⟨st, none, none⟩
  else
    let dataString := st.doc
    match st.history.getLast? with
    | some top =>
      match decompress top with
      | .error e => ⟨st, some e, none⟩
      | .ok text => if text = dataString then ⟨st, none, none⟩ else pushBounded st dataString
    | none => pushBounded st dataString

/-- The state in the middle of an `undo` transition: after
`this._locked = true`, `const current = this._history.pop()!` and
`this._redoStack.push(current)`, while the selection-changed notification,
the decompression and the document restore run.  `current` is the popped
top of `_history`. -/
def undoMid (st : State) (current : Snap) : State :=
  { st with
      locked := true
      history := st.history.dropLast
      redoStack := st.redoStack ++ [current] }

/-- `undo()`: guard `this._history.length < 2`; pop the current snapshot,
push it onto `_redoStack`, decompress the new top
(`this._history[this._history.length - 1]`), restore it into the document,
clear the guard.  The decompression (or, in JS, reading the top of an
empty array and decompressing `undefined`) throws with the stacks already
mutated and the guard still set. -/
def undo (st : State) : Result :=
  if st.history.length < 2 then ⟨st, none, none⟩
  else
    match st.history.getLast? with
    | none => ⟨st, none, none⟩
    | some current =>
      match (undoMid st current).history.getLast? with
      | none => ⟨undoMid st current, some "invalid zlib data", none⟩
      | some previous =>
        match decompress previous with
        | .error e => ⟨undoMid st current, some e, none⟩
        | .ok previousString =>
          ⟨{ undoMid st current with doc := previousString, locked := false }, none, none⟩

/-- The state in the middle of a `redo` transition: after
`this._locked = true`, `const current = this._redoStack.pop()!` and
`this._history.push(current)` (note: no bound enforcement here), while the
notification, decompression and restore run. -/
def redoMid (st : State) (current : Snap) : State :=
  { st with
      locked := true
      redoStack := st.redoStack.dropLast
      history := st.history ++ [current] }

/-- `redo()`: guard `this._redoStack.length < 1`; pop the most recent undo
snapshot, push it back onto `_history`, decompress that same popped
snapshot and restore it, clear the guard. -/
def redo (st : State) : Result :=
  if st.redoStack.length < 1 then ⟨st, none, none⟩
  else
    match st.redoStack.getLast? with
    | none => ⟨st, none, none⟩
    | some current =>
      match decompress current with
      | .error e => ⟨redoMid st current, some e, none⟩
      | .ok currentString =>
        ⟨{ redoMid st current with doc := currentString, locked := false }, none, none⟩

/-- `reset()`: `this._history = []; this._redoStack = []; this._store();`. -/
def reset (st : State) : Result :=
  _store { st with history := [], redoStack := [] }

/-- An external edit: the document changes to `s`, and the state manager's
change observables (`onUpdateRequiredObservable`, `onNodeMovedObservable`,
…), to which the constructor subscribes `() => this._store()`, fire. -/
def captureAfterEdit (st : State) (s : String) : Result :=
  _store { st with doc := s }

/-- A freshly constructed `HistoryStack`: both stacks empty, guard clear,
document in some state `d`.  The constructor only registers observers. -/
def initState (d : String) : State :=
  ⟨[], [], false, d⟩

/-- The states an instance can be driven to through its interface: edits
(each followed by the capture the observers trigger), `undo`, `redo` and
`reset`. -/
inductive Reached : State → Prop where
  | init (d : String) : Reached (initState d)
  | edit {st : State} (s : String) : Reached st → Reached (captureAfterEdit st s).state
  | undoStep {st : State} : Reached st → Reached (undo st).state
  | redoStep {st : State} : Reached st → Reached (redo st).state
  | resetStep {st : State} : Reached st → Reached (reset st).state

/-- A buffer actually produced by the compressor. -/
def goodSnap (x : Snap) : Prop :=
  ∃ s, x = compress s

/-- Invariant of reachable states: every stored buffer is a genuine
compression, the guard is clear at rest, and the top of the Past Stack is
the compression of the current document text (spec invariant I1). -/
def Inv (st : State) : Prop :=
  (∀ x ∈ st.history, goodSnap x) ∧
  (∀ x ∈ st.redoStack, goodSnap x) ∧
  st.locked = false ∧
  (∀ t, st.history.getLast? = some t → t = compress st.doc)

/-- Iterated edit-plus-capture, oldest edit first. -/
def captureSeq (docs : List String) (st : State) : State :=
  docs.foldl (fun s d => (captureAfterEdit s d).state) st

/-- 65 pairwise-distinct document texts: `""`, `"a"`, `"aa"`, …. -/
def distinctDocs : List String :=
  (List.range 65).map (fun n => String.mk (List.replicate n 'a'))

/-- A concrete full Past Stack: 64 distinct snapshots, top matching the
document, guard clear. -/
def fullState : State :=
  ⟨(List.range 64).map (fun n => compress (String.mk (List.replicate (n + 1) 'a'))),
   [], false, String.mk (List.replicate 64 'a')⟩

/-- A concrete state whose next-to-top Past Stack entry is corrupt, so the
decompression step of `undo` throws. -/
def corruptUndoState : State :=
  ⟨[.corrupt, .good "a"], [], false, "a"⟩

/-- A concrete state whose Future Stack top is corrupt, so the
decompression step of `redo` throws. -/
def corruptRedoState : State :=
  ⟨[.good "a"], [.corrupt], false, "a"⟩

/-- 63 further pairwise-distinct document texts, also distinct from the
texts of `overflowStart`. -/
def overflowDocs : List String :=
  (List.range 63).map (fun n => String.mk (List.replicate (n + 1) 'c'))

/-- A run leaving a snapshot on the Future Stack: two distinct captures,
then one `undo`. -/
def overflowStart : State :=
  (undo (captureAfterEdit (captureAfterEdit (initState "b0") "b0").state "b1").state).state

/-- `overflowStart` followed by 63 further distinct captures (filling the
Past Stack back to 64 entries while the Future Stack still holds one
snapshot), then a `redo`. -/
def overflowState : State :=
  (redo (captureSeq overflowDocs overflowStart)).state

set_option maxRecDepth 10000

/-! ### Helper lemmas about lists -/

theorem mem_of_getLast?_eq {α : Type} {l : List α} {a : α} (h : l.getLast? = some a) :
    a ∈ l := by
  have hne : l ≠ [] := by rintro rfl; simp at h
  rw [List.getLast?_eq_getLast l hne, Option.some_inj] at h
  exact h ▸ List.getLast_mem hne

theorem dropLast_append_of_getLast? {α : Type} {l : List α} {a : α}
    (h : l.getLast? = some a) : l.dropLast ++ [a] = l := by
  have hne : l ≠ [] := by rintro rfl; simp at h
  rw [List.getLast?_eq_getLast l hne, Option.some_inj] at h
  exact h ▸ List.dropLast_append_getLast hne

theorem getLast?_isSome_of_len {α : Type} {l : List α} (h : 1 ≤ l.length) :
    ∃ a, l.getLast? = some a := by
  cases hl : l.getLast? with
  | none => rw [List.getLast?_eq_none_iff] at hl; subst hl; simp at h
  | some a => exact ⟨a, rfl⟩

/-! ### Unfolding lemmas for the operations -/

/-- A capture request is ignored while the guard is set. -/
theorem store_locked {st : State} (h : st.locked = true) :
    _store st = ⟨st, none, none⟩ := by
  simp [_store, h]

theorem undo_noop {st : State} (h : st.history.length < 2) :
    undo st = ⟨st, none, none⟩ := by
  simp [undo, h]

theorem redo_noop {st : State} (h : st.redoStack.length < 1) :
    redo st = ⟨st, none, none⟩ := by
  simp [redo, h]

/-- Successful `undo`: with at least two past entries and a decompressible
next-to-top snapshot, the top moves to the Future Stack and the document
becomes the decompression of the new top. -/
theorem undo_eq {st : State} {current previous : Snap} {previousString : String}
    (hlen : 2 ≤ st.history.length)
    (hcur : st.history.getLast? = some current)
    (hprev : st.history.dropLast.getLast? = some previous)
    (hdec : decompress previous = .ok previousString) :
    undo st =
      ⟨⟨st.history.dropLast, st.redoStack ++ [current], false, previousString⟩,
       none, none⟩ := by
  have h2 : ¬ st.history.length < 2 := Nat.not_lt.mpr hlen
  simp [undo, undoMid, h2, hcur, hprev, hdec]

/-- Failing `undo`: the decompression of the next-to-top snapshot throws;
the exception propagates from the mid-transition state. -/
theorem undo_throw {st : State} {current previous : Snap} {e : String}
    (hlen : 2 ≤ st.history.length)
    (hcur : st.history.getLast? = some current)
    (hprev : st.history.dropLast.getLast? = some previous)
    (hdec : decompress previous = .error e) :
    undo st = ⟨undoMid st current, some e, none⟩ := by
  have h2 : ¬ st.history.length < 2 := Nat.not_lt.mpr hlen
  simp [undo, undoMid, h2, hcur, hprev, hdec]

/-- Successful `redo`: the Future Stack top moves back onto the Past Stack
and the document becomes its decompression. -/
theorem redo_eq {st : State} {current : Snap} {currentString : String}
    (hcur : st.redoStack.getLast? = some current)
    (hdec : decompress current = .ok currentString) :
    redo st =
      ⟨⟨st.history ++ [current], st.redoStack.dropLast, false, currentString⟩,
       none, none⟩ := by
  have hne : st.redoStack ≠ [] := by rintro h0; rw [h0] at hcur; simp at hcur
  have h1 : ¬ st.redoStack.length < 1 := by
    have := List.length_pos.mpr hne; omega
  simp [redo, redoMid, h1, hcur, hdec]

/-- Failing `redo`: decompressing the popped snapshot throws from the
mid-transition state. -/
theorem redo_throw {st : State} {current : Snap} {e : String}
    (hcur : st.redoStack.getLast? = some current)
    (hdec : decompress current = .error e) :
    redo st = ⟨redoMid st current, some e, none⟩ := by
  have hne : st.redoStack ≠ [] := by rintro h0; rw [h0] at hcur; simp at hcur
  have h1 : ¬ st.redoStack.length < 1 := by
    have := List.length_pos.mpr hne; omega
  simp [redo, h1, hcur, hdec]

/-- Dedup: with the guard clear and the top snapshot decompressing to the
current document text, `_store` is a no-op. -/
theorem store_dedup {st : State} {top : Snap}
    (htop : st.history.getLast? = some top)
    (hdec : decompress top = .ok st.doc) :
    _store st = ⟨st, none, none⟩ := by
  cases hl : st.locked
  · simp [_store, hl, htop, hdec]
  · exact store_locked hl

theorem store_push_of_empty {st : State} (hl : st.locked = false)
    (hh : st.history = []) :
    _store st = pushBounded st st.doc := by
  simp [_store, hl, hh]

theorem store_push_of_ne {st : State} {top : Snap} {text : String}
    (hl : st.locked = false) (htop : st.history.getLast? = some top)
    (hdec : decompress top = .ok text) (hne : ¬ text = st.doc) :
    _store st = pushBounded st st.doc := by
  simp [_store, hl, htop, hdec, hne]

/-- Throwing `_store`: the dedup check decompresses a corrupt top buffer
and the exception propagates before any mutation. -/
theorem store_throw {st : State} {top : Snap} {e : String}
    (hl : st.locked = false) (htop : st.history.getLast? = some top)
    (hdec : decompress top = .error e) :
    _store st = ⟨st, some e, none⟩ := by
  simp [_store, hl, htop, hdec]

theorem pushBounded_history_eq (st : State) (s : String) :
    (pushBounded st s).state.history =
      if maxHistoryLength < (st.history ++ [compress s]).length
      then (st.history ++ [compress s]).tail else st.history ++ [compress s] := rfl

theorem pushBounded_frame (st : State) (s : String) :
    (pushBounded st s).state.redoStack = st.redoStack ∧
      (pushBounded st s).state.locked = st.locked ∧
      (pushBounded st s).state.doc = st.doc ∧
      (pushBounded st s).thrown = none ∧ (pushBounded st s).ret = none :=
  ⟨rfl, rfl, rfl, rfl, rfl⟩

/-- Exhaustive description of `_store`: it either leaves the state intact
(guard, dedup), throws from the dedup check leaving the state intact, or
pushes the compressed document with eviction. -/
theorem store_cases (st : State) :
    (_store st).state = st ∧ (_store st).ret = none ∨
      _store st = pushBounded st st.doc := by
  cases hl : st.locked with
  | true => rw [store_locked hl]; exact Or.inl ⟨rfl, rfl⟩
  | false =>
    cases htop : st.history.getLast? with
    | none =>
      rw [store_push_of_empty hl (List.getLast?_eq_none_iff.mp htop)]
      exact Or.inr rfl
    | some top =>
      cases hdec : decompress top with
      | error e => rw [store_throw hl htop hdec]; exact Or.inl ⟨rfl, rfl⟩
      | ok text =>
        by_cases htext : text = st.doc
        · rw [store_dedup htop (htext ▸ hdec)]; exact Or.inl ⟨rfl, rfl⟩
        · rw [store_push_of_ne hl htop hdec htext]; exact Or.inr rfl

/-- `_store` never touches the Future Stack, the guard or the document. -/
theorem store_frame (st : State) :
    (_store st).state.redoStack = st.redoStack ∧
      (_store st).state.locked = st.locked ∧ (_store st).state.doc = st.doc := by
  rcases store_cases st with ⟨h, _⟩ | h
  · rw [h]; exact ⟨rfl, rfl, rfl⟩
  · rw [h]; exact ⟨rfl, rfl, rfl⟩

theorem pushBounded_history_le {st : State} {s : String}
    (h : st.history.length ≤ maxHistoryLength) :
    (pushBounded st s).state.history.length ≤ maxHistoryLength := by
  rw [pushBounded_history_eq]
  split <;> simp only [List.length_tail, List.length_append, List.length_singleton,
    maxHistoryLength] at * <;> omega

/-- A capture never grows the Past Stack beyond the bound. -/
theorem store_history_le {st : State} (h : st.history.length ≤ maxHistoryLength) :
    (_store st).state.history.length ≤ maxHistoryLength := by
  rcases store_cases st with ⟨hs, _⟩ | hs
  · rw [hs]; exact h
  · rw [hs]; exact pushBounded_history_le h

/-! ### The reachable-state invariant -/

theorem inv_init (d : String) : Inv (initState d) := by
  refine ⟨?_, ?_, rfl, ?_⟩ <;> simp [initState]

/-- `_store` establishes the invariant whenever the stored buffers are
genuine compressions and the guard is clear. -/
theorem inv_store {st : State}
    (hh : ∀ x ∈ st.history, goodSnap x) (hr : ∀ x ∈ st.redoStack, goodSnap x)
    (hl : st.locked = false) :
    Inv (_store st).state := by
  cases htop : st.history.getLast? with
  | none =>
    rw [List.getLast?_eq_none_iff] at htop
    rw [store_push_of_empty hl htop]
    refine ⟨?_, hr, hl, ?_⟩
    · intro x hx
      simp [pushBounded, htop, maxHistoryLength] at hx
      exact hx ▸ ⟨st.doc, rfl⟩
    · intro t ht
      simp [pushBounded, htop, maxHistoryLength] at ht
      simp [pushBounded, ht]
  | some top =>
    obtain ⟨u, rfl⟩ := hh top (mem_of_getLast?_eq htop)
    by_cases hu : u = st.doc
    · rw [store_dedup htop (by simp [decompress, compress, hu])]
      exact ⟨hh, hr, hl, fun t ht => by
        rw [htop, Option.some_inj] at ht; rw [← ht, hu]⟩
    · rw [store_push_of_ne hl htop (by simp [decompress, compress]) hu]
      have hmem : ∀ x ∈ (pushBounded st st.doc).state.history, goodSnap x := by
        intro x hx
        simp only [pushBounded] at hx
        have hsub : x ∈ st.history ++ [compress st.doc] := by
          split at hx
          · exact List.tail_subset _ hx
          · exact hx
        rcases List.mem_append.mp hsub with h1 | h1
        · exact hh x h1
        · exact (List.mem_singleton.mp h1) ▸ ⟨st.doc, rfl⟩
      refine ⟨hmem, hr, hl, ?_⟩
      intro t ht
      rw [pushBounded_history_eq] at ht
      split at ht
      · rename_i hlong
        have hne : st.history ≠ [] := by
          rintro h0
          simp [h0, maxHistoryLength] at hlong
        obtain ⟨a, l2, hc⟩ := List.exists_cons_of_ne_nil hne
        rw [hc, List.cons_append, List.tail_cons, List.getLast?_concat,
          Option.some_inj] at ht
        exact ht.symm
      · rw [List.getLast?_concat, Option.some_inj] at ht
        exact ht.symm

theorem inv_captureAfterEdit {st : State} (h : Inv st) (s : String) :
    Inv (captureAfterEdit st s).state := by
  obtain ⟨hh, hr, hl, _⟩ := h
  exact inv_store hh hr hl

theorem inv_undo {st : State} (h : Inv st) : Inv (undo st).state := by
  obtain ⟨hh, hr, hl, htop⟩ := h
  by_cases hlen : st.history.length < 2
  · rw [undo_noop hlen]; exact ⟨hh, hr, hl, htop⟩
  · push_neg at hlen
    obtain ⟨current, hcur⟩ :=
      getLast?_isSome_of_len (show 1 ≤ st.history.length by omega)
    have hcv := htop current hcur
    have hdll : 1 ≤ st.history.dropLast.length := by
      rw [List.length_dropLast]; omega
    obtain ⟨previous, hprev⟩ := getLast?_isSome_of_len hdll
    have hpmem : previous ∈ st.history :=
      (List.dropLast_sublist st.history).subset (mem_of_getLast?_eq hprev)
    obtain ⟨p, rfl⟩ := hh previous hpmem
    rw [undo_eq hlen hcur hprev (rfl : decompress (compress p) = Except.ok p)]
    refine ⟨?_, ?_, rfl, ?_⟩
    · exact fun x hx => hh x ((List.dropLast_sublist st.history).subset hx)
    · intro x hx
      rcases List.mem_append.mp hx with h1 | h1
      · exact hr x h1
      · exact (List.mem_singleton.mp h1) ▸ hcv ▸ ⟨st.doc, hcv ▸ rfl⟩
    · intro t ht
      rw [hprev, Option.some_inj] at ht
      exact ht.symm

theorem inv_redo {st : State} (h : Inv st) : Inv (redo st).state := by
  obtain ⟨hh, hr, hl, htop⟩ := h
  by_cases hlen : st.redoStack.length < 1
  · rw [redo_noop hlen]; exact ⟨hh, hr, hl, htop⟩
  · push_neg at hlen
    obtain ⟨current, hcur⟩ := getLast?_isSome_of_len hlen
    obtain ⟨c, rfl⟩ := hr current (mem_of_getLast?_eq hcur)
    rw [redo_eq hcur (rfl : decompress (compress c) = Except.ok c)]
    refine ⟨?_, ?_, rfl, ?_⟩
    · intro x hx
      rcases List.mem_append.mp hx with h1 | h1
      · exact hh x h1
      · exact (List.mem_singleton.mp h1) ▸ ⟨c, rfl⟩
    · exact fun x hx => hr x ((List.dropLast_sublist st.redoStack).subset hx)
    · intro t ht
      rw [List.getLast?_concat, Option.some_inj] at ht
      exact ht.symm

theorem inv_reset {st : State} (h : Inv st) : Inv (reset st).state := by
  obtain ⟨_, _, hl, _⟩ := h
  exact inv_store (by simp) (by simp) hl

/-- Every reachable state satisfies the invariant. -/
theorem reached_inv {st : State} (h : Reached st) : Inv st := by
  induction h with
  | init d => exact inv_init d
  | edit s _ ih => exact inv_captureAfterEdit ih s
  | undoStep _ ih => exact inv_undo ih
  | redoStep _ ih => exact inv_redo ih
  | resetStep _ ih => exact inv_reset ih

/-- Exhaustive description of `undo`: either the guard declined (no
mutation), or the transition died mid-way with the exception propagating
from the mid-transition state, or it completed. -/
theorem undo_full_cases (st : State) :
    undo st = ⟨st, none, none⟩ ∨
    (∃ current e, st.history.getLast? = some current ∧
        undo st = ⟨undoMid st current, some e, none⟩) ∨
    (∃ current previousString, st.history.getLast? = some current ∧
        undo st =
          ⟨{ undoMid st current with doc := previousString, locked := false },
           none, none⟩) := by
  unfold undo
  split
  · exact Or.inl rfl
  · split
    · exact Or.inl rfl
    · rename_i current hcur
      split
      · exact Or.inr (Or.inl ⟨current, "invalid zlib data", hcur, rfl⟩)
      · split
        · rename_i e he
          exact Or.inr (Or.inl ⟨current, e, hcur, rfl⟩)
        · rename_i pS hok
          exact Or.inr (Or.inr ⟨current, pS, hcur, rfl⟩)

/-- Exhaustive description of `redo`. -/
theorem redo_full_cases (st : State) :
    redo st = ⟨st, none, none⟩ ∨
    (∃ current e, st.redoStack.getLast? = some current ∧
        redo st = ⟨redoMid st current, some e, none⟩) ∨
    (∃ current currentString, st.redoStack.getLast? = some current ∧
        redo st =
          ⟨{ redoMid st current with doc := currentString, locked := false },
           none, none⟩) := by
  unfold redo
  split
  · exact Or.inl rfl
  · split
    · exact Or.inl rfl
    · rename_i current hcur
      split
      · rename_i e he
        exact Or.inr (Or.inl ⟨current, e, hcur, rfl⟩)
      · rename_i cS hok
        exact Or.inr (Or.inr ⟨current, cS, hcur, rfl⟩)

/-- `undo` only ever leaves the Past Stack alone or drops its top. -/
theorem undo_history_cases (st : State) :
    (undo st).state.history = st.history ∨
      (undo st).state.history = st.history.dropLast := by
  rcases undo_full_cases st with h | ⟨c, e, _, h⟩ | ⟨c, p, _, h⟩ <;> rw [h]
  · exact Or.inl rfl
  · exact Or.inr rfl
  · exact Or.inr rfl

/-- Iterated captures preserve reachability. -/
theorem reached_captureSeq {st : State} (h : Reached st) (docs : List String) :
    Reached (captureSeq docs st) := by
  induction docs generalizing st with
  | nil => exact h
  | cons d rest ih => exact ih (Reached.edit d h)

/-! ### The claims -/

/-- Claim C1: for every state in which the Past Stack has length ≥ 2,
`undo()` pops the current-state snapshot from the Past Stack, pushes that
popped snapshot onto the Future Stack, and restores the document from the
decompressed new top of the Past Stack — not from the popped entry. -/
theorem claim_c1_undo_transition (st : State) (current previous : Snap)
    (previousString : String)
    (hlen : 2 ≤ st.history.length)
    (hcur : st.history.getLast? = some current)
    (hprev : st.history.dropLast.getLast? = some previous)
    (hdec : decompress previous = .ok previousString) :
    undo st =
      ⟨⟨st.history.dropLast, st.redoStack ++ [current], false, previousString⟩,
       none, none⟩ :=
  undo_eq hlen hcur hprev hdec

/-- Witness for C1 at a concrete two-entry Past Stack. -/
theorem claim_c1_witness :
    undo ⟨[.good "a", .good "b"], [], false, "b"⟩ =
      ⟨⟨[.good "a"], [.good "b"], false, "a"⟩, none, none⟩ :=
  claim_c1_undo_transition ⟨[.good "a", .good "b"], [], false, "b"⟩
    (.good "b") (.good "a") "a" (by decide) rfl rfl rfl

/-- Claim C3: whenever the current serialized document text equals the
decompressed top of the Past Stack, a capture is a no-op — the state (in
particular the Past Stack) is unchanged and nothing is thrown. -/
theorem claim_c3_dedup (st : State) (top : Snap)
    (htop : st.history.getLast? = some top)
    (hdec : decompress top = .ok st.doc) :
    _store st = ⟨st, none, none⟩ :=
  store_dedup htop hdec

/-- Witness for C3 at a concrete state whose top snapshot matches the
document. -/
theorem claim_c3_witness :
    _store ⟨[.good "a"], [], false, "a"⟩ =
      ⟨⟨[.good "a"], [], false, "a"⟩, none, none⟩ :=
  claim_c3_dedup ⟨[.good "a"], [], false, "a"⟩ (.good "a") rfl rfl

/-- Claim C5 as frozen is false: `undo()` is a `void` method, so the call
evaluates to `undefined` (`ret = none`), never to the value `false`; on
the freshly constructed stack the claimed conjunction fails. -/
theorem claim_c5_counterexample :
    ¬ ((undo (initState "a")).ret = some false ∧
       (undo (initState "a")).state = initState "a") := by
  decide

/-- Claim C5 (amended): `undo()` with Past Stack length < 2 and `redo()`
with an empty Future Stack return `undefined` — there is no `false` return
value, the methods are `void` — without throwing and without mutating the
stacks or the document. -/
theorem claim_c5_amended (st : State) :
    (st.history.length < 2 → undo st = ⟨st, none, none⟩) ∧
      (st.redoStack.length < 1 → redo st = ⟨st, none, none⟩) :=
  ⟨fun h => undo_noop h, fun h => redo_noop h⟩

/-- Witness for the amended C5 on the freshly constructed stack. -/
theorem claim_c5_witness :
    undo (initState "a") = ⟨initState "a", none, none⟩ ∧
      redo (initState "a") = ⟨initState "a", none, none⟩ :=
  ⟨(claim_c5_amended (initState "a")).1 (by decide),
   (claim_c5_amended (initState "a")).2 (by decide)⟩

/-- Claim C6: the mid-transition states of `undo` and `redo` carry the
reentrancy guard, and a capture request arriving on them — whatever text
the document holds while the restore is mutating it — returns immediately
and creates no Past Stack entry. -/
theorem claim_c6_guard (st : State) (current : Snap) (s : String) :
    (undoMid st current).locked = true ∧
    _store { undoMid st current with doc := s } =
      ⟨{ undoMid st current with doc := s }, none, none⟩ ∧
    (redoMid st current).locked = true ∧
    _store { redoMid st current with doc := s } =
      ⟨{ redoMid st current with doc := s }, none, none⟩ :=
  ⟨rfl, store_locked rfl, rfl, store_locked rfl⟩

/-- Claim C8: a capture (deduplicating, storing or evicting, it makes no
difference) leaves the Future Stack identical; among the operations, only
`undo` pushes onto the Future Stack and only `redo` pops from it. -/
theorem claim_c8_future_frame (st : State) (s : String) :
    (_store st).state.redoStack = st.redoStack ∧
    (captureAfterEdit st s).state.redoStack = st.redoStack ∧
    ((undo st).state.redoStack = st.redoStack ∨
      ∃ x, st.history.getLast? = some x ∧
        (undo st).state.redoStack = st.redoStack ++ [x]) ∧
    ((redo st).state.redoStack = st.redoStack ∨
      (redo st).state.redoStack = st.redoStack.dropLast) := by
  refine ⟨(store_frame st).1, (store_frame _).1, ?_, ?_⟩
  · rcases undo_full_cases st with h | ⟨c, e, hc, h⟩ | ⟨c, p, hc, h⟩ <;> rw [h]
    · exact Or.inl rfl
    · exact Or.inr ⟨c, hc, rfl⟩
    · exact Or.inr ⟨c, hc, rfl⟩
  · rcases redo_full_cases st with h | ⟨c, e, hc, h⟩ | ⟨c, p, hc, h⟩ <;> rw [h]
    · exact Or.inl rfl
    · exact Or.inr rfl
    · exact Or.inr rfl

/-- Claim C2: on any reachable state where `undo()` performs a transition
(Past Stack length ≥ 2), an immediate `redo()` brings the instance back to
exactly the pre-undo state — bit-identical document text and both stacks —
with neither call throwing. -/
theorem claim_c2_round_trip (st : State) (hre : Reached st)
    (hlen : 2 ≤ st.history.length) :
    (undo st).thrown = none ∧ (redo (undo st).state).thrown = none ∧
      (redo (undo st).state).state = st := by
  obtain ⟨hh, hr, hl, htop⟩ := reached_inv hre
  obtain ⟨hist, rstack, lk, d⟩ := st
  simp only at hh hr hl htop hlen ⊢
  have hl' : lk = false := hl
  subst hl'
  obtain ⟨current, hcur⟩ :=
    getLast?_isSome_of_len (show 1 ≤ hist.length by omega)
  have hcv := htop current hcur
  subst hcv
  obtain ⟨previous, hprev⟩ :=
    getLast?_isSome_of_len
      (show 1 ≤ hist.dropLast.length by rw [List.length_dropLast]; omega)
  obtain ⟨p, hp⟩ :=
    hh previous ((List.dropLast_sublist hist).subset (mem_of_getLast?_eq hprev))
  subst hp
  rw [undo_eq hlen hcur hprev (rfl : decompress (compress p) = Except.ok p)]
  have hcur2 : (rstack ++ [compress d]).getLast? = some (compress d) :=
    List.getLast?_concat _
  rw [redo_eq hcur2 (rfl : decompress (compress d) = Except.ok d)]
  refine ⟨rfl, rfl, ?_⟩
  simp only
  rw [dropLast_append_of_getLast? hcur, List.dropLast_concat]

/-- Witness for C2: the reachable state with Past Stack
`[compress "a", compress "b"]` produced by two captures. -/
theorem claim_c2_witness :
    (redo (undo (captureAfterEdit
        (captureAfterEdit (initState "a") "a").state "b").state).state).state =
      (captureAfterEdit (captureAfterEdit (initState "a") "a").state "b").state :=
  (claim_c2_round_trip _
    (Reached.edit "b" (Reached.edit "a" (Reached.init "a"))) (by decide)).2.2

/-- Claim C7 as frozen is false: at a concrete state whose next-to-top
Past Stack entry is corrupt, the decompression in `undo` fails before the
document is mutated (the document text is indeed unchanged), yet both
stacks HAVE been mutated when the exception propagates. -/
theorem claim_c7_counterexample :
    (undo corruptUndoState).thrown.isSome = true ∧
      (undo corruptUndoState).state.doc = corruptUndoState.doc ∧
      ¬ (undo corruptUndoState).state.history = corruptUndoState.history ∧
      ¬ (undo corruptUndoState).state.redoStack = corruptUndoState.redoStack := by
  decide

/-- Claim C7 (amended): if decompression fails during an undo or redo
transition, the document is indeed not yet mutated and the error
propagates — but the stacks are not left unchanged: the popped snapshot
has already been transferred (Past to Future for `undo`, Future to Past
for `redo`) and the reentrancy guard remains set. -/
theorem claim_c7_amended (st : State) (e : String) :
    ((undo st).thrown = some e →
      (undo st).state.doc = st.doc ∧ (undo st).state.locked = true ∧
      (undo st).state.history = st.history.dropLast ∧
      ∃ x, st.history.getLast? = some x ∧
        (undo st).state.redoStack = st.redoStack ++ [x]) ∧
    ((redo st).thrown = some e →
      (redo st).state.doc = st.doc ∧ (redo st).state.locked = true ∧
      (redo st).state.redoStack = st.redoStack.dropLast ∧
      ∃ x, st.redoStack.getLast? = some x ∧
        (redo st).state.history = st.history ++ [x]) := by
  constructor
  · intro h
    rcases undo_full_cases st with hc | ⟨c, e', hcur, hc⟩ | ⟨c, p, hcur, hc⟩
    · rw [hc] at h; simp at h
    · rw [hc]; exact ⟨rfl, rfl, rfl, c, hcur, rfl⟩
    · rw [hc] at h; simp at h
  · intro h
    rcases redo_full_cases st with hc | ⟨c, e', hcur, hc⟩ | ⟨c, p, hcur, hc⟩
    · rw [hc] at h; simp at h
    · rw [hc]; exact ⟨rfl, rfl, rfl, c, hcur, rfl⟩
    · rw [hc] at h; simp at h

/-- Witness for the amended C7 at the concrete corrupt state. -/
theorem claim_c7_witness :
    (undo corruptUndoState).state.doc = corruptUndoState.doc ∧
      (undo corruptUndoState).state.locked = true ∧
      (undo corruptUndoState).state.history = corruptUndoState.history.dropLast ∧
      ∃ x, corruptUndoState.history.getLast? = some x ∧
        (undo corruptUndoState).state.redoStack = corruptUndoState.redoStack ++ [x] :=
  (claim_c7_amended corruptUndoState "invalid zlib data").1 (by decide)

/-- Claim C9 as frozen is false: `reset()` invoked on a state whose
reentrancy guard is (still) set finds `_store` refusing the capture, so
the Past Stack ends with zero entries, not one. -/
theorem claim_c9_counterexample :
    ¬ ((reset ⟨[], [], true, "a"⟩).state.history.length = 1) := by
  decide

/-- Claim C9 (amended): on every state whose reentrancy guard is clear,
`reset()` clears both stacks and immediately captures a fresh baseline:
the Past Stack ends with exactly one entry, the compression of the current
document text (so its decompression is the current serialized state), and
the Future Stack ends empty. -/
theorem claim_c9_amended (st : State) (h : st.locked = false) :
    reset st = ⟨⟨[compress st.doc], [], false, st.doc⟩, none, none⟩ ∧
      decompress (compress st.doc) = .ok st.doc := by
  obtain ⟨hist, rstack, lk, d⟩ := st
  have hl : lk = false := h
  subst hl
  exact ⟨rfl, rfl⟩

/-- Witness for the amended C9 at a concrete state with both stacks
non-trivial. -/
theorem claim_c9_witness :
    reset ⟨[.good "x"], [.good "y"], false, "z"⟩ =
      ⟨⟨[.good "z"], [], false, "z"⟩, none, none⟩ ∧
      decompress (compress "z") = .ok "z" :=
  claim_c9_amended ⟨[.good "x"], [.good "y"], false, "z"⟩ rfl

/-- Claim C10: when decompression throws during `undo()` or `redo()`, the
exception propagates with `_locked` still `true`, and on the post-error
state every capture request — whatever text the document then holds —
returns immediately without storing anything. -/
theorem claim_c10_locked_on_throw (st : State) (e : String) (s : String) :
    ((undo st).thrown = some e →
      (undo st).state.locked = true ∧
      _store { (undo st).state with doc := s } =
        ⟨{ (undo st).state with doc := s }, none, none⟩) ∧
    ((redo st).thrown = some e →
      (redo st).state.locked = true ∧
      _store { (redo st).state with doc := s } =
        ⟨{ (redo st).state with doc := s }, none, none⟩) := by
  constructor
  · intro h
    rcases undo_full_cases st with hc | ⟨c, e', hcur, hc⟩ | ⟨c, p, hcur, hc⟩
    · rw [hc] at h; simp at h
    · have hlk : (undo st).state.locked = true := by rw [hc]; rfl
      exact ⟨hlk, store_locked hlk⟩
    · rw [hc] at h; simp at h
  · intro h
    rcases redo_full_cases st with hc | ⟨c, e', hcur, hc⟩ | ⟨c, p, hcur, hc⟩
    · rw [hc] at h; simp at h
    · have hlk : (redo st).state.locked = true := by rw [hc]; rfl
      exact ⟨hlk, store_locked hlk⟩
    · rw [hc] at h; simp at h

/-- Claim C4 as frozen is false: `redo()` pushes onto the Past Stack
without enforcing the bound.  In the concrete reachable run
`overflowState` — two captures, an `undo` (leaving a snapshot on the
Future Stack), 63 further distinct captures refilling the Past Stack to
64, then `redo` — the Past Stack ends with 65 entries. -/
theorem claim_c4_counterexample :
    Reached overflowState ∧ maxHistoryLength < overflowState.history.length := by
  constructor
  · exact Reached.redoStep
      (reached_captureSeq
        (Reached.undoStep
          (Reached.edit "b1" (Reached.edit "b0" (Reached.init "b0"))))
        overflowDocs)
  · decide

/-- Claim C4 (amended): after every capture, undo, or reset the Past Stack
length stays at most `maxHistoryLength` (`redo`, by contrast, pushes
without the bound check); a capture that would exceed the bound evicts the
oldest entry (index 0) first; and capturing `maxHistoryLength + 1`
distinct states leaves length exactly `maxHistoryLength` with the oldest
state no longer retrievable. -/
theorem claim_c4_amended (st : State) (s v : String)
    (hlen : st.history.length ≤ maxHistoryLength) :
    (captureAfterEdit st s).state.history.length ≤ maxHistoryLength ∧
    (_store st).state.history.length ≤ maxHistoryLength ∧
    (undo st).state.history.length ≤ maxHistoryLength ∧
    (reset st).state.history.length ≤ maxHistoryLength ∧
    (st.locked = false → st.history.length = maxHistoryLength →
      st.history.getLast? = some (compress v) → ¬ v = s →
      (captureAfterEdit st s).state.history = (st.history ++ [compress s]).tail) ∧
    ((captureSeq distinctDocs (initState "")).history.length = maxHistoryLength ∧
      compress "" ∉ (captureSeq distinctDocs (initState "")).history) := by
  refine ⟨store_history_le hlen, store_history_le hlen, ?_, ?_, ?_, by decide⟩
  · rcases undo_history_cases st with h | h <;> rw [h]
    · exact hlen
    · rw [List.length_dropLast]; omega
  · exact store_history_le (by simp [maxHistoryLength])
  · intro hl hfull htopv hvs
    unfold captureAfterEdit
    rw [store_push_of_ne
        (show ({ st with doc := s } : State).locked = false from hl)
        (show ({ st with doc := s } : State).history.getLast? = some (compress v)
          from htopv)
        (rfl : decompress (compress v) = Except.ok v)
        (show ¬ v = ({ st with doc := s } : State).doc from hvs),
      pushBounded_history_eq]
    rw [if_pos (show maxHistoryLength <
        (({ st with doc := s } : State).history ++
          [compress ({ st with doc := s } : State).doc]).length by
      simp only [List.length_append, List.length_singleton]
      show maxHistoryLength < st.history.length + 1
      omega)]

/-- Witness for the amended C4: evicting capture on a concrete full
Past Stack of 64 distinct snapshots. -/
theorem claim_c4_witness :
    (captureAfterEdit fullState "zz").state.history =
      (fullState.history ++ [compress "zz"]).tail :=
  ((claim_c4_amended fullState "zz" (String.mk (List.replicate 64 'a'))
      (by decide)).2.2.2.2.1) rfl (by decide) (by decide) (by decide)

/-- Witness for C10 at a concrete state whose Future Stack top is
corrupt, so `redo` throws. -/
theorem claim_c10_witness :
    (redo corruptRedoState).state.locked = true ∧
      _store { (redo corruptRedoState).state with doc := "w" } =
        ⟨{ (redo corruptRedoState).state with doc := "w" }, none, none⟩ :=
  (claim_c10_locked_on_throw corruptRedoState "invalid zlib data" "w").2 (by decide)

end HistoryStack
